import Mathlib

/-!
Verification development for the flight-video synchronizer
(`flight_video_synchronizer.py`).  The definitions below are a shallow
embedding of the script's data handling: the sync-plan computation in
`load_data`, the per-column resampling in `interpolate_csv_to_video_fps`
(numpy `interp`, `searchsorted` and pandas `round`), the per-frame panel
updates in `animate`, and the encoder configuration in `generate_video`.
Python floats are idealised as rationals; pandas columns are lists of
values; a raised exception is an `Except.error`.
-/

/-- A cell of a pandas column: either numeric or a string. -/
inductive Val
  | num (q : ℚ)
  | str (s : String)
  deriving DecidableEq, Repr

/-- Python `int(x)`: truncation toward zero. -/
def pyInt (q : ℚ) : ℤ :=
  if 0 ≤ q then ⌊q⌋ else ⌈q⌉

/-- `load_data` lines 94-95:
`sync_frame_count = int(csv_duration * video_fps)` then
`sync_frame_count = min(sync_frame_count, video_frame_count)`. -/
def sync_frame_count (csv_duration video_fps : ℚ) (video_frame_count : ℤ) : ℤ :=
  min (pyInt (csv_duration * video_fps)) video_frame_count

/-- `load_data` lines 78-95: the only raise is `ValueError` when the video
cannot be opened; otherwise the sync frame count is computed with no
validation of the scalar inputs. -/
def load_data_sync (video_opens : Bool) (csv_duration video_fps : ℚ)
    (video_frame_count : ℤ) : Except String ℤ :=
  if video_opens then
    Except.ok (sync_frame_count csv_duration video_fps video_frame_count)
  else
    Except.error "cannot open video"

/-- `np.searchsorted(a, v)` with the default side `left`: the least index
`i` with `v ≤ a[i]`, or `a.length` when there is none. -/
def searchsortedLeft (a : List ℚ) (v : ℚ) : ℕ :=
  match a with
  | [] => 0
  | x :: xs => if v ≤ x then 0 else searchsortedLeft xs v + 1

/-- `interpolate_csv_to_video_fps` lines 192-194 for the `timestamp`
column: `indices = np.searchsorted(csv_times, t)` clipped to
`[0, len(df)-1]`, then `df[col].iloc[indices]`. -/
def timestampResample (csv_times : List ℚ) (vals : List Val) (t : ℚ) : Val :=
  vals.getD (min (searchsortedLeft csv_times t) (vals.length - 1)) (Val.str "")

/-- `np.interp(t, xp, fp)` on the point list `xp.zip fp`: clamps to the
first value for `t` below the range, to the last value above it, and
interpolates linearly between the bracketing points otherwise.  numpy
raises on an empty `xp`; the empty case here is a junk value and the
fallible wrapper `npInterpE` models the raise. -/
def npInterp (t : ℚ) : List (ℚ × ℚ) → ℚ
  | [] => 0
  | [(_, v)] => v
  | (t0, v0) :: (t1, v1) :: rest =>
      if t ≤ t0 then v0
      else if t ≤ t1 then v0 + (v1 - v0) * (t - t0) / (t1 - t0)
      else npInterp t ((t1, v1) :: rest)

/-- `np.interp` as a fallible call: it raises only on an empty sample-point
array, never for an out-of-range query time. -/
def npInterpE (t : ℚ) (pts : List (ℚ × ℚ)) : Option ℚ :=
  match pts with
  | [] => none
  | _ :: _ => some (npInterp t pts)

/-- numpy / pandas `.round()`: round half to even. -/
def roundHalfEven (q : ℚ) : ℤ :=
  if q - ⌊q⌋ < 1 / 2 then ⌊q⌋
  else if 1 / 2 < q - ⌊q⌋ then ⌊q⌋ + 1
  else if Even ⌊q⌋ then ⌊q⌋ else ⌊q⌋ + 1

/-- `interpolate_csv_to_video_fps` lines 195-198 for one discrete-count
cell: `np.interp(...)` then `.round().astype(int)`. -/
def resampleDiscreteAt (pts : List (ℚ × ℚ)) (t : ℚ) : ℤ :=
  roundHalfEven (npInterp t pts)

/-- The four integer columns named at line 195 of the source. -/
def discreteCols : List String :=
  ["frame_number", "marker_count", "send_success", "control_active"]

/-- A pandas column is usable by `np.interp` only when every cell is
numeric; a string cell makes `np.interp` raise `TypeError`. -/
def asNumeric : List Val → Option (List ℚ)
  | [] => some []
  | Val.num q :: rest => (asNumeric rest).map (q :: ·)
  | Val.str _ :: _ => none

/-- `interpolate_csv_to_video_fps` lines 187-206, one column:
`ok none` means the column is skipped (the `elapsed_time` `continue`, or
the caught coercion failure of a continuous column, which only prints a
warning); `error` is the uncaught `TypeError` from `np.interp` on a
non-numeric discrete-count column. -/
def interpCol (csv_times video_times : List ℚ) (name : String)
    (data : List Val) : Except String (Option (List Val)) :=
  if name = "elapsed_time" then Except.ok none
  else if name = "timestamp" then
    Except.ok (some (video_times.map (fun t => timestampResample csv_times data t)))
  else if name ∈ discreteCols then
    match asNumeric data with
    | some nums =>
        Except.ok (some (video_times.map
          (fun t => Val.num (resampleDiscreteAt (csv_times.zip nums) t))))
    | none => Except.error ("TypeError: " ++ name)
  else
    match asNumeric data with
    | some nums =>
        Except.ok (some (video_times.map
          (fun t => Val.num (npInterp t (csv_times.zip nums)))))
    | none => Except.ok none

/-- The column loop of `interpolate_csv_to_video_fps`: columns processed
left to right, an uncaught exception aborts the whole call. -/
def interpCols (csv_times video_times : List ℚ) :
    List (String × List Val) → Except String (List (String × List Val))
  | [] => Except.ok []
  | (name, data) :: rest =>
      match interpCol csv_times video_times name data with
      | Except.error e => Except.error e
      | Except.ok none => interpCols csv_times video_times rest
      | Except.ok (some vals) =>
          match interpCols csv_times video_times rest with
          | Except.error e => Except.error e
          | Except.ok out => Except.ok ((name, vals) :: out)

/-- `interpolate_csv_to_video_fps` as a whole: the output frame starts
with `elapsed_time = video_times` (line 184), then the interpolated
columns. -/
def interpolate_csv_to_video_fps (csv_times video_times : List ℚ)
    (cols : List (String × List Val)) :
    Except String (List (String × List Val)) :=
  match interpCols csv_times video_times cols with
  | Except.error e => Except.error e
  | Except.ok out => Except.ok (("elapsed_time", video_times.map Val.num) :: out)

/-- `__init__` line 54: `self.output_fps = 30`; it is never reassigned. -/
def output_fps_init : ℚ := 30

/-- `generate_video` line 399: `FFMpegWriter(fps=self.output_fps, ...)`
uses the value set in `__init__`. -/
def encoder_fps : ℚ := output_fps_init

/-- `interpolate_csv_to_video_fps` line 180: the resampling grid
`video_times = np.arange(0, sync_frame_count) / video_fps`. -/
def gridTime (video_fps : ℚ) (i : ℕ) : ℚ := (i : ℚ) / video_fps

/-- One frame of `animate` lines 220-226 for the video axis: the axis is
redrawn with frame `i` only when `i < len(video_frames)`; otherwise it is
left untouched and keeps its previous content. -/
def videoPanelStep {α : Type} (video_frames : List α) (i : ℕ)
    (prev : Option α) : Option α :=
  if h : i < video_frames.length then some (video_frames.get ⟨i, h⟩) else prev

/-- Content of the video axis after `animate` has run on frames
`0, 1, ..., i`; the figure starts with an empty video axis. -/
def videoPanelAt {α : Type} (video_frames : List α) : ℕ → Option α
  | 0 => videoPanelStep video_frames 0 none
  | i + 1 => videoPanelStep video_frames (i + 1) (videoPanelAt video_frames i)

/-- The `generate_video` loop lines 406-409: one composed frame per index
in `range(len(interpolated_df))`, regardless of how many video frames were
decoded; the video-panel content of output frame `i` is recorded. -/
def generateFrames {α : Type} (n : ℕ) (video_frames : List α) :
    List (Option α) :=
  (List.range n).map (videoPanelAt video_frames)

/-- The channels `animate` reads unconditionally from the interpolated
frame (lines 213, 238-243, 266-268, 284-288, 305-309, 327-335). -/
def requiredChannels : List String :=
  ["elapsed_time", "pos_x", "pos_y", "roll_ref_deg", "pitch_ref_deg",
   "pid_x_p", "pid_x_i", "pid_x_d", "pid_y_p", "pid_y_i", "pid_y_d",
   "marker_count"]

/-- `animate` column access: pandas raises `KeyError` on the first
required channel absent from the interpolated frame; there is no
try/except in `animate`. -/
def animateFrame (df : List (String × List Val)) : Except String Unit :=
  match requiredChannels.find? (fun n => (df.find? (fun p => p.1 = n)).isNone) with
  | some n => Except.error ("KeyError: " ++ n)
  | none => Except.ok ()

/-- The rendering loop of `generate_video`: frames are composed in order
and an exception from `animate` aborts all remaining frames.  Returns the
number of frames written. -/
def renderFrames (df : List (String × List Val)) : ℕ → Except String ℕ
  | 0 => Except.ok 0
  | n + 1 =>
      match renderFrames df n with
      | Except.error e => Except.error e
      | Except.ok k =>
          match animateFrame df with
          | Except.error e => Except.error e
          | Except.ok _ => Except.ok (k + 1)

/-- Spec-side definition, following the spec's words for the categorical
resampling policy: the value at the nearest source time lower than or
equal to `t`, or the first source value when `t` precedes all source
times.  Used only to compare against the code's `timestampResample`. -/
def nearestPredecessorValue (csv_times : List ℚ) (vals : List Val) (t : ℚ) : Val :=
  match ((List.range csv_times.length).filter
      (fun i => decide (csv_times.getD i 0 ≤ t))).getLast? with
  | none => vals.getD 0 (Val.str "")
  | some i => vals.getD i (Val.str "")

/-- C1: for positive source duration, video frame rate and video frame
count, the planned output frame count equals
`min(videoFrameCount, floor(sourceDuration * outputFrameRate))`, the
output frame rate being the video's native rate. -/
theorem sync_plan_output_count (d r : ℚ) (n : ℤ)
    (hd : 0 < d) (hr : 0 < r) (_hn : 0 < n) :
    sync_frame_count d r n = min n ⌊d * r⌋ := by
  unfold sync_frame_count pyInt
  rw [if_pos (le_of_lt (mul_pos hd hr))]
  exact min_comm _ _

theorem sync_plan_output_count_witness :
    sync_frame_count 2 3 100 = min 100 ⌊(2 : ℚ) * 3⌋ :=
  sync_plan_output_count 2 3 100 (by norm_num) (by norm_num) (by norm_num)

/-- `searchsortedLeft` returns the least index whose entry is at least the
query value. -/
theorem searchsortedLeft_eq_of (a : List ℚ) (t : ℚ) (j : ℕ) (hj : j < a.length)
    (hge : t ≤ a.getD j 0) (hlt : ∀ k, k < j → a.getD k 0 < t) :
    searchsortedLeft a t = j := by
  induction a generalizing j with
  | nil => simp at hj
  | cons x xs ih =>
      cases j with
      | zero =>
          simp only [List.getD_cons_zero] at hge
          simp [searchsortedLeft, hge]
      | succ j =>
          have hx : x < t := by
            have := hlt 0 (Nat.succ_pos j)
            simpa using this
          simp only [searchsortedLeft, if_neg (not_le.mpr hx)]
          have hj2 : j < xs.length := by simpa using hj
          have hge2 : t ≤ xs.getD j 0 := by simpa using hge
          have hlt2 : ∀ k, k < j → xs.getD k 0 < t := by
            intro k hk
            have := hlt (k + 1) (Nat.succ_lt_succ hk)
            simpa using this
          exact congrArg (· + 1) (ih j hj2 hge2 hlt2)

/-- When every entry is below the query value, `searchsortedLeft` returns
the length of the array. -/
theorem searchsortedLeft_eq_length (a : List ℚ) (t : ℚ)
    (h : ∀ k, k < a.length → a.getD k 0 < t) :
    searchsortedLeft a t = a.length := by
  induction a with
  | nil => rfl
  | cons x xs ih =>
      have hx : x < t := by simpa using h 0 (Nat.succ_pos _)
      have h2 : ∀ k, k < xs.length → xs.getD k 0 < t := by
        intro k hk
        have := h (k + 1) (Nat.succ_lt_succ hk)
        simpa using this
      simp [searchsortedLeft, if_neg (not_le.mpr hx), ih h2]

/-- C2 counterexample: with source times `[0, 2]` and timestamp values
`["a", "b"]`, the resampled timestamp at `t = 1` is `"b"` (the value at
the nearest source time at or above `t`), while the claimed
nearest-predecessor policy would give `"a"`. -/
theorem timestamp_not_predecessor_cex :
    timestampResample [0, 2] [Val.str "a", Val.str "b"] 1 = Val.str "b" ∧
    nearestPredecessorValue [0, 2] [Val.str "a", Val.str "b"] 1 = Val.str "a" ∧
    Val.str "b" ≠ Val.str "a" := by
  refine ⟨by decide, by decide, by decide⟩

/-- C2 (amended): for the categorical `timestamp` column, the resampled
value at time `t` equals the source value at the nearest source time
greater than or equal to `t` (nearest successor), or the last source value
when `t` exceeds all source times. -/
theorem timestamp_nearest_successor (csv_times : List ℚ) (vals : List Val)
    (t : ℚ) (hlen : vals.length = csv_times.length) :
    (∀ j, j < csv_times.length → t ≤ csv_times.getD j 0 →
      (∀ k, k < j → csv_times.getD k 0 < t) →
      timestampResample csv_times vals t = vals.getD j (Val.str "")) ∧
    ((∀ k, k < csv_times.length → csv_times.getD k 0 < t) →
      csv_times ≠ [] →
      timestampResample csv_times vals t
        = vals.getD (csv_times.length - 1) (Val.str "")) := by
  constructor
  · intro j hj hge hlt
    unfold timestampResample
    rw [searchsortedLeft_eq_of csv_times t j hj hge hlt, hlen]
    have hm : min j (csv_times.length - 1) = j := by omega
    rw [hm]
  · intro h hne
    unfold timestampResample
    rw [searchsortedLeft_eq_length csv_times t h, hlen]
    have hpos : 0 < csv_times.length := List.length_pos.mpr hne
    have hm : min csv_times.length (csv_times.length - 1)
        = csv_times.length - 1 := by omega
    rw [hm]

theorem timestamp_nearest_successor_witness :
    timestampResample [0, 2] [Val.str "a", Val.str "b"] 1
      = [Val.str "a", Val.str "b"].getD 1 (Val.str "") := by
  have h := (timestamp_nearest_successor [0, 2] [Val.str "a", Val.str "b"]
      1 (by decide)).1 1 (by decide) (by decide)
  refine h ?_
  intro k hk
  have hk0 : k = 0 := by omega
  subst hk0
  decide

/-- A leading point strictly before the query time does not change the
value of `npInterp` when the next point is also strictly before it. -/
theorem npInterp_cons_of_lt (t s w : ℚ) (a : ℚ × ℚ) (l : List (ℚ × ℚ))
    (hs : s < t) (ha : a.1 < t) :
    npInterp t ((s, w) :: a :: l) = npInterp t (a :: l) := by
  obtain ⟨a1, a2⟩ := a
  simp only [npInterp]
  rw [if_neg (not_le.mpr hs), if_neg (not_le.mpr ha)]

/-- Points strictly before the query time can be dropped from the head of
the sample list. -/
theorem npInterp_append_of_lt (t : ℚ) (pre : List (ℚ × ℚ)) (a : ℚ × ℚ)
    (l : List (ℚ × ℚ)) (hpre : ∀ p ∈ pre, p.1 < t) (ha : a.1 < t) :
    npInterp t (pre ++ a :: l) = npInterp t (a :: l) := by
  induction pre with
  | nil => rw [List.nil_append]
  | cons p pre ih =>
      obtain ⟨s, w⟩ := p
      have hs : s < t := hpre (s, w) (List.mem_cons_self _ _)
      have hrest : ∀ q ∈ pre, q.1 < t := fun q hq => hpre q (List.mem_cons_of_mem _ hq)
      rw [List.cons_append]
      cases pre with
      | nil =>
          rw [List.nil_append]
          exact npInterp_cons_of_lt t s w a l hs ha
      | cons b pre2 =>
          have hb : b.1 < t := hrest b (List.mem_cons_self _ _)
          rw [List.cons_append,
            npInterp_cons_of_lt t s w b (pre2 ++ a :: l) hs hb,
            ← List.cons_append]
          exact ih hrest

/-- Value of `npInterp` between two adjacent sample points. -/
theorem npInterp_bracket (t : ℚ) (pre post : List (ℚ × ℚ)) (t0 v0 t1 v1 : ℚ)
    (hpre : ∀ p ∈ pre, p.1 < t) (h0 : t0 < t) (h1 : t ≤ t1) :
    npInterp t (pre ++ (t0, v0) :: (t1, v1) :: post)
      = v0 + (v1 - v0) * (t - t0) / (t1 - t0) := by
  rw [npInterp_append_of_lt t pre (t0, v0) ((t1, v1) :: post) hpre h0]
  simp only [npInterp]
  rw [if_neg (not_le.mpr h0), if_pos h1]

/-- Every time in the leading segment of a pairwise-increasing sample list
is below a query time that lies above the first bracketing time. -/
theorem pre_times_lt (pre : List (ℚ × ℚ)) (t0 v0 t1 v1 : ℚ)
    (post : List (ℚ × ℚ)) (t : ℚ)
    (hsorted : ((pre ++ (t0, v0) :: (t1, v1) :: post).map Prod.fst).Pairwise (· < ·))
    (h0 : t0 < t) :
    ∀ p ∈ pre, p.1 < t := by
  intro p hp
  have hmap : (pre.map Prod.fst ++ t0 :: t1 :: post.map Prod.fst).Pairwise
      ((· < ·) : ℚ → ℚ → Prop) := by
    simpa using hsorted
  have h := (List.pairwise_append.mp hmap).2.2
  have hpt0 : p.1 < t0 :=
    h p.1 (List.mem_map_of_mem Prod.fst hp) t0 (List.mem_cons_self _ _)
  exact lt_trans hpt0 h0

/-- C3: for every continuous channel, an output time `t` strictly between
two consecutive source times `t0 < t1` with values `v0, v1` resamples to
the exact linear interpolation `v0 + (v1 - v0) * (t - t0) / (t1 - t0)`. -/
theorem continuous_linear_interpolation (pre post : List (ℚ × ℚ))
    (t0 v0 t1 v1 t : ℚ)
    (hsorted : ((pre ++ (t0, v0) :: (t1, v1) :: post).map Prod.fst).Pairwise (· < ·))
    (h0 : t0 < t) (h1 : t < t1) :
    npInterp t (pre ++ (t0, v0) :: (t1, v1) :: post)
      = v0 + (v1 - v0) * (t - t0) / (t1 - t0) :=
  npInterp_bracket t pre post t0 v0 t1 v1
    (pre_times_lt pre t0 v0 t1 v1 post t hsorted h0) h0 (le_of_lt h1)

theorem continuous_linear_interpolation_witness :
    npInterp (1 / 2) [((0 : ℚ), (0 : ℚ)), (1, 10)]
      = 0 + (10 - 0) * ((1 / 2) - 0) / (1 - 0) := by
  have h := continuous_linear_interpolation [] [] 0 0 1 10 (1 / 2)
    (by simp) (by norm_num) (by norm_num)
  simpa using h

/-- Round-half-to-even lands within one half of its argument. -/
theorem abs_sub_roundHalfEven (q : ℚ) :
    |q - (roundHalfEven q : ℚ)| ≤ 1 / 2 := by
  have h0 : ((⌊q⌋ : ℚ)) ≤ q := Int.floor_le q
  have h1 : q < (⌊q⌋ : ℚ) + 1 := Int.lt_floor_add_one q
  unfold roundHalfEven
  split_ifs with hlt hgt hev
  · rw [abs_of_nonneg (by linarith)]
    linarith
  · push_cast
    rw [abs_of_nonpos (by linarith)]
    linarith
  · rw [abs_of_nonneg (by linarith)]
    linarith
  · push_cast
    rw [abs_of_nonpos (by linarith)]
    linarith

/-- Round-half-to-even is a nearest integer: no integer is strictly
closer to the argument. -/
theorem roundHalfEven_nearest (q : ℚ) (z : ℤ) :
    |q - (roundHalfEven q : ℚ)| ≤ |q - (z : ℚ)| := by
  by_cases hz : z = roundHalfEven q
  · subst hz
    exact le_refl _
  · have hnz : roundHalfEven q - z ≠ 0 := sub_ne_zero.mpr fun h => hz h.symm
    have h1 : (1 : ℤ) ≤ |roundHalfEven q - z| := Int.one_le_abs hnz
    have h1q : (1 : ℚ) ≤ |(roundHalfEven q : ℚ) - (z : ℚ)| := by
      have hc : (1 : ℚ) ≤ ((|roundHalfEven q - z| : ℤ) : ℚ) := by
        exact_mod_cast h1
      rwa [Int.cast_abs, Int.cast_sub] at hc
    have h2 := abs_sub_roundHalfEven q
    have h3 : |(roundHalfEven q : ℚ) - (z : ℚ)|
        ≤ |(roundHalfEven q : ℚ) - q| + |q - (z : ℚ)| := abs_sub_le _ _ _
    have h4 : |(roundHalfEven q : ℚ) - q| = |q - (roundHalfEven q : ℚ)| :=
      abs_sub_comm _ _
    linarith

/-- C4: each resampled discrete-count value is an integer, is exactly the
code's rounding of the linear interpolation of the bracketing source
values, and is a nearest integer to that interpolated value.  The amended
tie-break (half to even) is numpy's. -/
theorem discrete_rounded_nearest (pre post : List (ℚ × ℚ))
    (t0 v0 t1 v1 t : ℚ)
    (hsorted : ((pre ++ (t0, v0) :: (t1, v1) :: post).map Prod.fst).Pairwise (· < ·))
    (h0 : t0 < t) (h1 : t < t1) (z : ℤ) :
    resampleDiscreteAt (pre ++ (t0, v0) :: (t1, v1) :: post) t
      = roundHalfEven (v0 + (v1 - v0) * (t - t0) / (t1 - t0)) ∧
    |(v0 + (v1 - v0) * (t - t0) / (t1 - t0))
        - (resampleDiscreteAt (pre ++ (t0, v0) :: (t1, v1) :: post) t : ℚ)|
      ≤ |(v0 + (v1 - v0) * (t - t0) / (t1 - t0)) - (z : ℚ)| := by
  have hb : npInterp t (pre ++ (t0, v0) :: (t1, v1) :: post)
      = v0 + (v1 - v0) * (t - t0) / (t1 - t0) :=
    npInterp_bracket t pre post t0 v0 t1 v1
      (pre_times_lt pre t0 v0 t1 v1 post t hsorted h0) h0 (le_of_lt h1)
  unfold resampleDiscreteAt
  rw [hb]
  exact ⟨rfl, roundHalfEven_nearest _ z⟩

theorem discrete_rounded_nearest_witness :
    resampleDiscreteAt [((0 : ℚ), (0 : ℚ)), (4, 10)] 1
      = roundHalfEven (0 + (10 - 0) * (1 - 0) / (4 - 0)) ∧
    |(0 + (10 - 0) * (1 - 0) / (4 - 0))
        - (resampleDiscreteAt [((0 : ℚ), (0 : ℚ)), (4, 10)] 1 : ℚ)|
      ≤ |(0 + (10 - 0) * (1 - 0) / (4 - 0)) - ((3 : ℤ) : ℚ)| := by
  have h := discrete_rounded_nearest [] [] 0 0 4 10 1 (by simp) (by norm_num)
    (by norm_num) 3
  simpa using h

/-- C5 counterexample: for a video with native rate 60 fps, the resampling
grid spacing is `1/60` (native rate drives the grid), but the encoder is
opened at the constant `output_fps = 30`, not the native rate. -/
theorem encoder_fps_not_native_cex :
    gridTime 60 1 = 1 / 60 ∧ encoder_fps ≠ 60 := by
  constructor
  · rw [gridTime]
    norm_num
  · rw [encoder_fps, output_fps_init]
    norm_num

/-- C5 (amended): the resampling time grid is `t_i = i / video_fps` driven
by the video's native rate, while composite frames are encoded at the
constant `output_fps = 30` fixed in `__init__`; the two rates coincide
exactly when the native rate is 30. -/
theorem encoder_fps_fixed_grid_native (r : ℚ) (i : ℕ) :
    encoder_fps = 30 ∧ gridTime r i = (i : ℚ) / r ∧ (encoder_fps = r ↔ r = 30) := by
  refine ⟨rfl, rfl, ?_⟩
  rw [encoder_fps, output_fps_init]
  exact eq_comm

/-- The video axis keeps the last decoded frame (or stays empty when no
frame was decoded) for every output index past the decoded range. -/
theorem videoPanelAt_ge {α : Type} (video_frames : List α) :
    ∀ i, video_frames.length ≤ i + 1 →
      videoPanelAt video_frames i = video_frames.getLast? := by
  intro i
  induction i with
  | zero =>
      intro h
      cases video_frames with
      | nil => rfl
      | cons x xs =>
          have hxs : xs = [] := by
            cases xs with
            | nil => rfl
            | cons y ys => simp at h
          subst hxs
          rfl
  | succ i ih =>
      intro h
      rcases Nat.lt_or_ge (i + 1) video_frames.length with hlt | hge
      · have hlen : video_frames.length = i + 2 := by omega
        rw [videoPanelAt, videoPanelStep, dif_pos hlt]
        rw [List.getLast?_eq_getElem?, List.get_eq_getElem,
          ← List.getElem?_eq_getElem hlt]
        congr 1
        omega
      · rw [videoPanelAt, videoPanelStep, dif_neg (not_lt.mpr hge)]
        exact ih (by omega)

/-- C6 counterexample: one decoded frame and two planned output frames;
the claim predicts a placeholder (empty) video panel at output index 1,
but the panel still shows the frame decoded for index 0. -/
theorem exhausted_video_panel_cex :
    videoPanelAt [(5 : ℕ)] 1 = some 5 ∧ (some (5 : ℕ) ≠ none) := by
  refine ⟨rfl, by simp⟩

/-- C6 (amended): when only `k` video frames decode out of `n` planned
output frames, all `n` output frames are still produced, but each frame
with index at or past `k` shows the last decoded video frame (or an empty
panel when `k = 0`) rather than a placeholder. -/
theorem exhausted_video_panel_retains_last (video_frames : List ℕ) (n i : ℕ)
    (hk : video_frames.length ≤ i) (hin : i < n) :
    (generateFrames n video_frames).length = n ∧
    (generateFrames n video_frames).getD i none = video_frames.getLast? := by
  constructor
  · rw [generateFrames]
    simp
  · have h1 : (generateFrames n video_frames).getD i none
        = videoPanelAt video_frames i := by
      rw [generateFrames, List.getD_eq_getElem?_getD, List.getElem?_map,
        List.getElem?_range hin]
      rfl
    rw [h1]
    exact videoPanelAt_ge video_frames i (le_trans hk (Nat.le_succ i))

theorem exhausted_video_panel_retains_last_witness :
    (generateFrames 2 [(5 : ℕ)]).length = 2 ∧
    (generateFrames 2 [(5 : ℕ)]).getD 1 none = [(5 : ℕ)].getLast? :=
  exhausted_video_panel_retains_last [5] 2 1 (by decide) (by decide)

/-- `npInterp` clamps to the first sample value for query times at or
below the first sample time. -/
theorem npInterp_head_clamp (t : ℚ) (p : ℚ × ℚ) (l : List (ℚ × ℚ))
    (h : t ≤ p.1) : npInterp t (p :: l) = p.2 := by
  obtain ⟨t0, v0⟩ := p
  cases l with
  | nil => rfl
  | cons q l2 =>
      obtain ⟨t1, v1⟩ := q
      simp only [npInterp]
      rw [if_pos h]

/-- The first time of a strictly increasing sample list is at most its
last time. -/
theorem fst_le_of_getLast (p : ℚ × ℚ) (l : List (ℚ × ℚ)) (lastp : ℚ × ℚ)
    (hsorted : ((p :: l).map Prod.fst).Pairwise (· < ·))
    (hget : (p :: l).getLast? = some lastp) :
    p.1 ≤ lastp.1 := by
  have hmem : lastp ∈ p :: l := by
    obtain ⟨h1, h2⟩ := List.mem_getLast?_eq_getLast (Option.mem_def.mpr hget)
    rw [h2]
    exact List.getLast_mem h1
  rcases List.mem_cons.mp hmem with heq | hmem2
  · rw [heq]
  · rw [List.map_cons, List.pairwise_cons] at hsorted
    exact le_of_lt (hsorted.1 _ (List.mem_map_of_mem Prod.fst hmem2))

/-- `npInterp` clamps to the last sample value for query times at or above
the last sample time of a strictly increasing sample list. -/
theorem npInterp_last_clamp (t : ℚ) (pts : List (ℚ × ℚ)) (lastp : ℚ × ℚ)
    (hsorted : (pts.map Prod.fst).Pairwise (· < ·))
    (hget : pts.getLast? = some lastp) (hlast : lastp.1 ≤ t) :
    npInterp t pts = lastp.2 := by
  induction pts with
  | nil => simp at hget
  | cons p rest ih =>
      cases rest with
      | nil =>
          have hp : p = lastp := by simpa using hget
          subst hp
          obtain ⟨t0, v0⟩ := p
          rfl
      | cons q l =>
          rw [List.getLast?_cons_cons] at hget
          have hsorted2 : ((q :: l).map Prod.fst).Pairwise
              ((· < ·) : ℚ → ℚ → Prop) := by
            rw [List.map_cons, List.pairwise_cons] at hsorted
            exact hsorted.2
          have hpq : p.1 < q.1 := by
            rw [List.map_cons, List.pairwise_cons] at hsorted
            exact hsorted.1 q.1
              (List.mem_map_of_mem Prod.fst (List.mem_cons_self q l))
          have hq_last : q.1 ≤ lastp.1 := fst_le_of_getLast q l lastp hsorted2 hget
          have hp_t : p.1 < t := lt_of_lt_of_le hpq (le_trans hq_last hlast)
          obtain ⟨t0, v0⟩ := p
          obtain ⟨t1, v1⟩ := q
          simp only [npInterp]
          rw [if_neg (not_le.mpr hp_t)]
          cases l with
          | nil =>
              have hq : (t1, v1) = lastp := by simpa using hget
              subst hq
              by_cases ht : t ≤ t1
              · rw [if_pos ht]
                have hteq : t = t1 := le_antisymm ht hlast
                subst hteq
                have hne01 : t - t0 ≠ 0 := sub_ne_zero.mpr (ne_of_gt hpq)
                field_simp
              · rw [if_neg ht]
                rfl
          | cons r l2 =>
              have ht1r : t1 < r.1 := by
                rw [List.map_cons, List.pairwise_cons] at hsorted2
                exact hsorted2.1 r.1
                  (List.mem_map_of_mem Prod.fst (List.mem_cons_self r l2))
              have hsorted3 : ((r :: l2).map Prod.fst).Pairwise
                  ((· < ·) : ℚ → ℚ → Prop) := by
                rw [List.map_cons, List.pairwise_cons] at hsorted2
                exact hsorted2.2
              have hget2 : (r :: l2).getLast? = some lastp := by
                rw [List.getLast?_cons_cons] at hget
                exact hget
              have hr_last : r.1 ≤ lastp.1 :=
                fst_le_of_getLast r l2 lastp hsorted3 hget2
              have ht1t : t1 < t :=
                lt_of_lt_of_le ht1r (le_trans hr_last hlast)
              rw [if_neg (not_le.mpr ht1t)]
              exact ih hsorted2 hget

/-- C7 counterexample: source times `[0, 1]`, one-frame period `1/30`; the
query time `t = 2` exceeds the last source time by far more than one
frame period, yet resampling does not fail — it returns the clamped last
value `20`. -/
theorem resample_no_out_of_range_cex :
    (1 : ℚ) + 1 / 30 < 2 ∧ npInterpE 2 [(0, 10), (1, 20)] = some 20 := by
  constructor
  · norm_num
  · rfl

/-- C7 (amended): resampling never fails for any query time: on a
nonempty source, `np.interp` always returns a value, clamping to the
first source value below the range and (for a strictly increasing source)
to the last source value above it. -/
theorem resample_total_clamped (pts : List (ℚ × ℚ)) (t : ℚ)
    (hne : pts ≠ []) :
    npInterpE t pts = some (npInterp t pts) ∧
    (t ≤ (pts.headD (0, 0)).1 →
      npInterpE t pts = some ((pts.headD (0, 0)).2)) ∧
    ((pts.map Prod.fst).Pairwise (· < ·) →
      ∀ lastp : ℚ × ℚ, pts.getLast? = some lastp → lastp.1 ≤ t →
        npInterpE t pts = some lastp.2) := by
  cases pts with
  | nil => exact absurd rfl hne
  | cons p l =>
      refine ⟨rfl, ?_, ?_⟩
      · intro h
        have hc := npInterp_head_clamp t p l (by simpa using h)
        simp only [npInterpE, List.headD_cons]
        rw [hc]
      · intro hsorted lastp hget hlast
        have hc := npInterp_last_clamp t (p :: l) lastp hsorted hget hlast
        simp only [npInterpE]
        rw [hc]

theorem resample_total_clamped_witness :
    npInterpE 5 [((0 : ℚ), (10 : ℚ)), (1, 20)] = some 20 := by
  have h := (resample_total_clamped [((0 : ℚ), (10 : ℚ)), (1, 20)] 5
    (by simp)).2.2 (by norm_num) (1, 20) (by rfl) (by norm_num)
  simpa using h

/-- C8 counterexample: with a non-positive source duration `-1`, a frame
rate of `30` and `100` video frames, `load_data` raises nothing — the sync
plan is computed as `-30` and processing would continue. -/
theorem load_data_no_validation_cex :
    load_data_sync true (-1) 30 100 = Except.ok (-30) := by
  rw [load_data_sync, if_pos rfl, sync_frame_count, pyInt]
  have h : ((-1 : ℚ) * 30) = ((-30 : ℤ) : ℚ) := by norm_num
  rw [h, if_neg (by norm_num), Int.ceil_intCast]
  have hm : min (-30 : ℤ) 100 = -30 := by decide
  rw [hm]

/-- C8 (amended): sync planning performs no validation of its scalar
inputs: for any non-positive source duration it still succeeds, returning
a non-positive frame count, and the only input check surfaced by
`load_data` is the unopenable-video one. -/
theorem load_data_only_video_open_check (d r : ℚ) (n : ℤ)
    (hd : d ≤ 0) (hr : 0 < r) :
    load_data_sync true d r n = Except.ok (sync_frame_count d r n) ∧
    sync_frame_count d r n ≤ 0 ∧
    load_data_sync false d r n = Except.error "cannot open video" := by
  refine ⟨rfl, ?_, rfl⟩
  have hdr : d * r ≤ 0 :=
    mul_nonpos_iff.mpr (Or.inr ⟨hd, le_of_lt hr⟩)
  have hp : pyInt (d * r) ≤ 0 := by
    rw [pyInt]
    split_ifs with h
    · have h1 : ((⌊d * r⌋ : ℚ)) ≤ d * r := Int.floor_le _
      have h2 : ((⌊d * r⌋ : ℚ)) ≤ 0 := le_trans h1 hdr
      exact_mod_cast h2
    · exact Int.ceil_le.mpr (by exact_mod_cast hdr)
  rw [sync_frame_count]
  exact le_trans (min_le_left _ _) hp

theorem load_data_only_video_open_check_witness :
    load_data_sync true (-1) 30 100 = Except.ok (sync_frame_count (-1) 30 100) ∧
    sync_frame_count (-1) 30 100 ≤ 0 ∧
    load_data_sync false (-1) 30 100 = Except.error "cannot open video" :=
  load_data_only_video_open_check (-1) 30 100 (by norm_num) (by norm_num)

/-- Whether the column loop emits an output column for this input column:
`elapsed_time` is always skipped, `timestamp` is always emitted, and any
other column is emitted exactly when it coerces to numbers (a numeric
discrete-count or continuous column). -/
def keptCol (p : String × List Val) : Bool :=
  (!decide (p.1 = "elapsed_time"))
    && (decide (p.1 = "timestamp") || (asNumeric p.2).isSome)

/-- Whether a fallible call returned normally. -/
def exceptOk {ε α : Type} : Except ε α → Bool
  | Except.ok _ => true
  | Except.error _ => false

/-- The column names present in the result of a fallible resampling call
(empty when the call raised). -/
def namesOfD (e : Except String (List (String × List Val))) : List String :=
  match e with
  | Except.error _ => []
  | Except.ok out => out.map Prod.fst

/-- Two entries of a key-unique association list with equal keys are the
same entry. -/
theorem eq_of_mem_nodup_keys (l : List (String × List Val))
    (h : (l.map Prod.fst).Nodup) (a b : String × List Val)
    (ha : a ∈ l) (hb : b ∈ l) (hab : a.1 = b.1) : a = b := by
  induction l with
  | nil => exact absurd ha (List.not_mem_nil a)
  | cons p rest ih =>
      rw [List.map_cons, List.nodup_cons] at h
      rcases List.mem_cons.mp ha with ha1 | ha2 <;>
        rcases List.mem_cons.mp hb with hb1 | hb2
      · rw [ha1, hb1]
      · exfalso
        apply h.1
        rw [ha1] at hab
        rw [hab]
        exact List.mem_map_of_mem Prod.fst hb2
      · exfalso
        apply h.1
        rw [hb1] at hab
        rw [← hab]
        exact List.mem_map_of_mem Prod.fst ha2
      · exact ih h.2 ha2 hb2

/-- When every discrete-count column is numeric, the column loop returns
normally and emits exactly the kept columns, in order. -/
theorem interpCols_names (ct vt : List ℚ) (cols : List (String × List Val))
    (hdisc : ∀ p ∈ cols, p.1 ∈ discreteCols → (asNumeric p.2).isSome = true) :
    ∃ out, interpCols ct vt cols = Except.ok out ∧
      out.map Prod.fst = (cols.filter keptCol).map Prod.fst := by
  induction cols with
  | nil => exact ⟨[], rfl, rfl⟩
  | cons p rest ih =>
      obtain ⟨name, data⟩ := p
      have hdisc2 : ∀ q ∈ rest, q.1 ∈ discreteCols → (asNumeric q.2).isSome = true :=
        fun q hq => hdisc q (List.mem_cons_of_mem _ hq)
      obtain ⟨out, hout, hnames⟩ := ih hdisc2
      by_cases h1 : name = "elapsed_time"
      · have hcol : interpCol ct vt name data = Except.ok none := by
          rw [interpCol, if_pos h1]
        refine ⟨out, ?_, ?_⟩
        · show (match interpCol ct vt name data with
            | Except.error e => Except.error e
            | Except.ok none => interpCols ct vt rest
            | Except.ok (some vals) =>
                match interpCols ct vt rest with
                | Except.error e => Except.error e
                | Except.ok o => Except.ok ((name, vals) :: o)) = Except.ok out
          rw [hcol]
          exact hout
        · have hk : keptCol (name, data) = false := by
            simp [keptCol, h1]
          rw [List.filter_cons, hk]
          simpa using hnames
      · by_cases h2 : name = "timestamp"
        · have hcol : interpCol ct vt name data
              = Except.ok (some (vt.map (fun t => timestampResample ct data t))) := by
            rw [interpCol, if_neg h1, if_pos h2]
          refine ⟨(name, vt.map (fun t => timestampResample ct data t)) :: out, ?_, ?_⟩
          · show (match interpCol ct vt name data with
              | Except.error e => Except.error e
              | Except.ok none => interpCols ct vt rest
              | Except.ok (some vals) =>
                  match interpCols ct vt rest with
                  | Except.error e => Except.error e
                  | Except.ok o => Except.ok ((name, vals) :: o)) = _
            rw [hcol, hout]
          · have hk : keptCol (name, data) = true := by
              simp [keptCol, h1, h2]
            rw [List.filter_cons, hk]
            simpa using hnames
        · by_cases h3 : name ∈ discreteCols
          · have hnum := hdisc (name, data) (List.mem_cons_self _ _) h3
            obtain ⟨nums, hnums⟩ := Option.isSome_iff_exists.mp hnum
            have hcol : interpCol ct vt name data
                = Except.ok (some (vt.map
                    (fun t => Val.num (resampleDiscreteAt (ct.zip nums) t)))) := by
              rw [interpCol, if_neg h1, if_neg h2, if_pos h3, hnums]
            refine ⟨(name, vt.map
                (fun t => Val.num (resampleDiscreteAt (ct.zip nums) t))) :: out, ?_, ?_⟩
            · show (match interpCol ct vt name data with
                | Except.error e => Except.error e
                | Except.ok none => interpCols ct vt rest
                | Except.ok (some vals) =>
                    match interpCols ct vt rest with
                    | Except.error e => Except.error e
                    | Except.ok o => Except.ok ((name, vals) :: o)) = _
              rw [hcol, hout]
            · have hk : keptCol (name, data) = true := by
                simp [keptCol, h1, hnum]
              rw [List.filter_cons, hk]
              simpa using hnames
          · cases hnumcase : asNumeric data with
            | some nums =>
                have hcol : interpCol ct vt name data
                    = Except.ok (some (vt.map
                        (fun t => Val.num (npInterp t (ct.zip nums))))) := by
                  rw [interpCol, if_neg h1, if_neg h2, if_neg h3, hnumcase]
                refine ⟨(name, vt.map
                    (fun t => Val.num (npInterp t (ct.zip nums)))) :: out, ?_, ?_⟩
                · show (match interpCol ct vt name data with
                    | Except.error e => Except.error e
                    | Except.ok none => interpCols ct vt rest
                    | Except.ok (some vals) =>
                        match interpCols ct vt rest with
                        | Except.error e => Except.error e
                        | Except.ok o => Except.ok ((name, vals) :: o)) = _
                  rw [hcol, hout]
                · have hk : keptCol (name, data) = true := by
                    simp [keptCol, h1, hnumcase]
                  rw [List.filter_cons, hk]
                  simpa using hnames
            | none =>
                have hcol : interpCol ct vt name data = Except.ok none := by
                  rw [interpCol, if_neg h1, if_neg h2, if_neg h3, hnumcase]
                refine ⟨out, ?_, ?_⟩
                · show (match interpCol ct vt name data with
                    | Except.error e => Except.error e
                    | Except.ok none => interpCols ct vt rest
                    | Except.ok (some vals) =>
                        match interpCols ct vt rest with
                        | Except.error e => Except.error e
                        | Except.ok o => Except.ok ((name, vals) :: o)) = Except.ok out
                  rw [hcol]
                  exact hout
                · have hk : keptCol (name, data) = false := by
                    simp [keptCol, h1, h2, hnumcase]
                  rw [List.filter_cons, hk]
                  simpa using hnames

/-- C9 counterexample: a non-numeric `marker_count` column (a discrete
channel that cannot be coerced) is not skipped with a warning — the
uncaught `TypeError` aborts the whole resampling call, even though the
other column is perfectly numeric. -/
theorem discrete_coercion_aborts_cex :
    interpolate_csv_to_video_fps [0, 1] [0]
      [("marker_count", [Val.str "x", Val.str "y"]),
       ("pos_x", [Val.num 0, Val.num 1])]
      = Except.error "TypeError: marker_count" := rfl

/-- C9 (amended): the inconsistent-column tolerance policy covers only
continuous (non-timestamp, non-discrete) columns: provided every
discrete-count column is numeric, a continuous column that cannot be
coerced is dropped from the output with only a warning, the call returns
normally, and every kept column is still emitted; a non-numeric
discrete-count column instead aborts the whole call. -/
theorem continuous_coercion_skip (ct vt : List ℚ)
    (cols : List (String × List Val)) (name : String) (data : List Val)
    (q : String × List Val)
    (hdisc : ∀ p ∈ cols, p.1 ∈ discreteCols → (asNumeric p.2).isSome = true)
    (hnodup : (cols.map Prod.fst).Nodup)
    (hmem : (name, data) ∈ cols) (hn1 : name ≠ "elapsed_time")
    (hn2 : name ≠ "timestamp") (_hn3 : name ∉ discreteCols)
    (hnum : asNumeric data = none)
    (hq : q ∈ cols) (hkept : keptCol q = true) :
    exceptOk (interpolate_csv_to_video_fps ct vt cols) = true ∧
    name ∉ namesOfD (interpolate_csv_to_video_fps ct vt cols) ∧
    q.1 ∈ namesOfD (interpolate_csv_to_video_fps ct vt cols) := by
  obtain ⟨out, hout, hnames⟩ := interpCols_names ct vt cols hdisc
  have hwhole : interpolate_csv_to_video_fps ct vt cols
      = Except.ok (("elapsed_time", vt.map Val.num) :: out) := by
    rw [interpolate_csv_to_video_fps, hout]
  rw [hwhole]
  refine ⟨rfl, ?_, ?_⟩
  · show name ∉ (("elapsed_time", vt.map Val.num) :: out).map Prod.fst
    rw [List.map_cons]
    intro hmem2
    rcases List.mem_cons.mp hmem2 with heq | hmem3
    · exact hn1 heq
    · rw [hnames] at hmem3
      obtain ⟨p, hpf, hpeq⟩ := List.mem_map.mp hmem3
      have hpc := List.mem_filter.mp hpf
      have hpe : p = (name, data) :=
        eq_of_mem_nodup_keys cols hnodup p (name, data) hpc.1 hmem hpeq
      have hfalse : keptCol (name, data) = false := by
        simp [keptCol, hn2, hnum]
      rw [hpe, hfalse] at hpc
      exact Bool.false_ne_true hpc.2
  · show q.1 ∈ (("elapsed_time", vt.map Val.num) :: out).map Prod.fst
    rw [List.map_cons]
    refine List.mem_cons_of_mem _ ?_
    rw [hnames]
    exact List.mem_map_of_mem Prod.fst (List.mem_filter.mpr ⟨hq, hkept⟩)

theorem continuous_coercion_skip_witness :
    exceptOk (interpolate_csv_to_video_fps [0, 1] [0]
      [("pos_q", [Val.str "bad"]), ("pos_x", [Val.num 0, Val.num 1]),
       ("marker_count", [Val.num 1, Val.num 2])]) = true ∧
    "pos_q" ∉ namesOfD (interpolate_csv_to_video_fps [0, 1] [0]
      [("pos_q", [Val.str "bad"]), ("pos_x", [Val.num 0, Val.num 1]),
       ("marker_count", [Val.num 1, Val.num 2])]) ∧
    ("pos_x", [Val.num 0, Val.num 1]).1
      ∈ namesOfD (interpolate_csv_to_video_fps [0, 1] [0]
      [("pos_q", [Val.str "bad"]), ("pos_x", [Val.num 0, Val.num 1]),
       ("marker_count", [Val.num 1, Val.num 2])]) :=
  continuous_coercion_skip [0, 1] [0]
    [("pos_q", [Val.str "bad"]), ("pos_x", [Val.num 0, Val.num 1]),
     ("marker_count", [Val.num 1, Val.num 2])]
    "pos_q" [Val.str "bad"] ("pos_x", [Val.num 0, Val.num 1])
    (by decide) (by decide) (by decide) (by decide) (by decide) (by decide)
    rfl (by decide) (by decide)

/-- C10 counterexample: an interpolated frame lacking `pos_x` does not
render a placeholder panel — the pandas `KeyError` escapes `animate` and
aborts the rendering loop, so none of the three planned frames are
produced. -/
theorem missing_channel_aborts_cex :
    animateFrame [("elapsed_time", [Val.num 0])]
      = Except.error "KeyError: pos_x" ∧
    renderFrames [("elapsed_time", [Val.num 0])] 3
      = Except.error "KeyError: pos_x" :=
  ⟨rfl, rfl⟩

/-- C10 (amended): frame composition succeeds only when every channel the
panels require is present in the interpolated frame; in that case every
planned frame is produced.  A missing required channel raises `KeyError`
and aborts the frame and all remaining frames (see the counterexample). -/
theorem animate_requires_all_channels (df : List (String × List Val))
    (h : ∀ n ∈ requiredChannels, (df.find? (fun p => p.1 = n)).isSome = true)
    (m : ℕ) :
    renderFrames df m = Except.ok m := by
  have hanim : animateFrame df = Except.ok () := by
    rw [animateFrame]
    have hfind : requiredChannels.find?
        (fun n => (df.find? (fun p => p.1 = n)).isNone) = none := by
      rw [List.find?_eq_none]
      intro n hn
      have := h n hn
      rw [Option.isNone_iff_eq_none]
      intro hnone
      rw [hnone] at this
      exact Bool.false_ne_true this
    rw [hfind]
  induction m with
  | zero => rfl
  | succ m ih =>
      show (match renderFrames df m with
        | Except.error e => Except.error e
        | Except.ok k =>
            match animateFrame df with
            | Except.error e => Except.error e
            | Except.ok _ => Except.ok (k + 1)) = Except.ok (m + 1)
      rw [ih, hanim]

theorem animate_requires_all_channels_witness :
    renderFrames (requiredChannels.map (fun n => (n, [Val.num 0]))) 2
      = Except.ok 2 :=
  animate_requires_all_channels
    (requiredChannels.map (fun n => (n, [Val.num 0]))) (by decide) 2
